import Mathlib

/-!
Shallow embedding of the presentation core of the widgetsboxmodel plugin
(src/widgetsboxmodel/src/plugin.cpp): the hierarchical parallel state
machine built in `Plugin::init_statemachine`, the query wiring performed in
the `textChanged` handler of `Plugin::Plugin`, the entry effects of the
`s_results_model_fallbacks` and `s_results_actions_visible` states, and the
`activate` dispatcher lambda.
-/

namespace WidgetsBoxModel

/-- The four modifier keys of `mods_keys` in plugin.cpp (Shift, Meta,
Control, Alt); `mod_fallback` and `mod_actions` are each one of these. -/
inductive ModKey
  | shift
  | meta
  | control
  | alt
deriving DecidableEq

/-- Events consumed by the state machine: the signals and key events the
transitions of `Plugin::init_statemachine` are registered on. -/
inductive Event
  | textChanged
  | timerTimeout
  | queryFinished
  | resultsReady
  | keyPress (k : ModKey)
  | keyRelease (k : ModKey)
  | buttonEnter
  | buttonLeave
deriving DecidableEq

/-- Read-only context snapshot used by the transition guards at dispatch
time: the `show_fallbacks_on_empty_query` flag, the row counts of the
current query's `fallbacks()` and `matches()` models, the two configured
modifier keys, and the two guards of the button region. -/
structure Ctx where
  showFallbacks : Bool
  fbCount : Nat
  mCount : Nat
  fbMod : ModKey
  actMod : ModKey
  inputUnderMouse : Bool
  queryIsFinished : Bool
deriving DecidableEq

/-- Leaves of the `s_results_model` region: `s_results_model_matches`
(initial) and `s_results_model_fallbacks`. -/
inductive MState
  | matches
  | fallbacks
deriving DecidableEq

/-- Leaves of the `s_results_actions` region: `s_results_actions_hidden`
(initial) and `s_results_actions_visible`. -/
inductive AState
  | ahidden
  | ashown
deriving DecidableEq

/-- The `s_results` region: `s_results_hidden` (initial),
`s_results_postpone`, or the parallel composite `s_results_visible` whose
two orthogonal sub-regions carry an `MState` and an `AState`. -/
inductive RState
  | hidden
  | postpone
  | visible (model : MState) (actions : AState)
deriving DecidableEq

/-- The `s_button` region: `s_button_hidden` (initial) or `s_button_shown`. -/
inductive BState
  | bhidden
  | bshown
deriving DecidableEq

/-- Step of the `s_results_actions` orthogonal sub-region, active only
while `s_results_visible` is: `QKeyEventTransition`s on press/release of
`mods_keys[mod_actions]` (plugin.cpp:331-335), unguarded. -/
def actionsStep (c : Ctx) (e : Event) (a : AState) : AState :=
  match e, a with
  | .keyPress k, .ahidden => if k = c.actMod then .ashown else .ahidden
  | .keyRelease k, .ashown => if k = c.actMod then .ahidden else .ashown
  | _, _ => a

/-- Step of the `s_results` region, transcribing the transitions registered
in `Plugin::init_statemachine` (plugin.cpp:279-335) in their registration
order, with the guard closures evaluated over the context snapshot.
Entering `s_results_visible` through a deep target enters the initial
states of the untargeted orthogonal sub-regions, per `QStateMachine`
semantics. -/
def resultsStep (c : Ctx) (e : Event) (r : RState) : RState :=
  match r with
  | .hidden =>
    match e with
    | .queryFinished =>
        if c.showFallbacks = true ∧ 0 < c.fbCount then .visible .fallbacks .ahidden
        else .hidden
    | .keyPress k =>
        if k = c.fbMod ∧ 0 < c.fbCount then .visible .fallbacks .ahidden
        else .hidden
    | .resultsReady => .visible .matches .ahidden
    | _ => .hidden
  | .postpone =>
    match e with
    | .timerTimeout => .hidden
    | .queryFinished =>
        if c.showFallbacks = false ∨ c.fbCount = 0 then .hidden
        else .visible .fallbacks .ahidden
    | .keyPress k =>
        if k = c.fbMod ∧ 0 < c.fbCount then .visible .fallbacks .ahidden
        else .postpone
    | .resultsReady => .visible .matches .ahidden
    | _ => .postpone
  | .visible m a =>
    match e with
    | .textChanged => .postpone
    | .keyRelease k =>
      match m with
      | .fallbacks =>
          if k = c.fbMod then
            if c.mCount = 0 then .hidden
            else .visible .matches (actionsStep c (.keyRelease k) a)
          else .visible .fallbacks (actionsStep c (.keyRelease k) a)
      | .matches => .visible .matches (actionsStep c (.keyRelease k) a)
    | .keyPress k =>
      match m with
      | .matches =>
          if k = c.fbMod ∧ 0 < c.fbCount then
            .visible .fallbacks (actionsStep c (.keyPress k) a)
          else .visible .matches (actionsStep c (.keyPress k) a)
      | .fallbacks => .visible .fallbacks (actionsStep c (.keyPress k) a)
    | _ => .visible m a

/-- Step of the `s_button` region (plugin.cpp:338-351). -/
def buttonStep (c : Ctx) (e : Event) (b : BState) : BState :=
  match b, e with
  | .bhidden, .buttonEnter => .bshown
  | .bhidden, .textChanged => .bshown
  | .bshown, .queryFinished => if c.inputUnderMouse then .bshown else .bhidden
  | .bshown, .buttonLeave => if c.queryIsFinished then .bhidden else .bshown
  | b2, _ => b2

/-- Configuration of `s_top` (`QState::ParallelStates`): the two top-level
orthogonal regions. -/
structure Conf where
  button : BState
  results : RState
deriving DecidableEq

/-- Initial configuration after `machine->start()`: every region enters its
initial state. -/
def initConf : Conf := ⟨.bhidden, .hidden⟩

/-- One machine step: the two top-level parallel regions react to the same
event independently (no transition crosses between them). -/
def step (c : Ctx) (e : Event) (s : Conf) : Conf :=
  ⟨buttonStep c e s.button, resultsStep c e s.results⟩

/-- Run the machine over a trace of (context snapshot, event) pairs. -/
def run (s : Conf) (tr : List (Ctx × Event)) : Conf :=
  tr.foldl (fun acc ce => step ce.1 ce.2 acc) s

end WidgetsBoxModel

namespace WidgetsBoxModel

/-- Names of the states of the chart built in `Plugin::init_statemachine`. -/
inductive SState
  | top
  | button
  | buttonHidden
  | buttonShown
  | results
  | resultsHidden
  | resultsPostpone
  | resultsVisible
  | resultsModel
  | resultsModelMatches
  | resultsModelFallbacks
  | resultsActions
  | resultsActionsHidden
  | resultsActionsVisible
deriving DecidableEq

/-- The set of chart states active in a configuration, mirroring the
`QStateMachine` configuration set: a composite state is active together
with exactly one child per region. -/
def activeLeaves (s : Conf) : List SState :=
  [SState.top, SState.button]
  ++ (match s.button with
      | .bhidden => [SState.buttonHidden]
      | .bshown => [SState.buttonShown])
  ++ [SState.results]
  ++ (match s.results with
      | .hidden => [SState.resultsHidden]
      | .postpone => [SState.resultsPostpone]
      | .visible m a =>
        [SState.resultsVisible, SState.resultsModel]
        ++ (match m with
            | .matches => [SState.resultsModelMatches]
            | .fallbacks => [SState.resultsModelFallbacks])
        ++ [SState.resultsActions]
        ++ (match a with
            | .ahidden => [SState.resultsActionsHidden]
            | .ashown => [SState.resultsActionsVisible]))

/-- How many of the given sibling states are active in the configuration. -/
def countActive (s : Conf) (xs : List SState) : Nat :=
  xs.countP (fun x => decide (x ∈ activeLeaves s))

/-- Region exclusivity holds in every configuration, reachable or not. -/
theorem conf_regions_exclusive (s : Conf) :
    countActive s [SState.resultsHidden, SState.resultsPostpone, SState.resultsVisible] = 1
    ∧ (SState.resultsVisible ∈ activeLeaves s →
        countActive s [SState.resultsModelMatches, SState.resultsModelFallbacks] = 1
        ∧ countActive s [SState.resultsActionsHidden, SState.resultsActionsVisible] = 1) := by
  obtain ⟨b, r⟩ := s
  cases b <;> cases r <;> (try decide) <;>
    (rename_i m a; cases m <;> cases a <;> decide)

/-- C1: for every trace of events processed from the initial configuration,
exactly one of the results-region siblings (`s_results_hidden`,
`s_results_postpone`, `s_results_visible`) is active, and whenever
`s_results_visible` is active, exactly one of its model sub-region leaves
(matches, fallbacks) and exactly one of its actions sub-region leaves
(hidden, visible) is active. -/
theorem results_region_exactly_one_leaf (tr : List (Ctx × Event)) :
    countActive (run initConf tr)
      [SState.resultsHidden, SState.resultsPostpone, SState.resultsVisible] = 1
    ∧ (SState.resultsVisible ∈ activeLeaves (run initConf tr) →
        countActive (run initConf tr)
          [SState.resultsModelMatches, SState.resultsModelFallbacks] = 1
        ∧ countActive (run initConf tr)
          [SState.resultsActionsHidden, SState.resultsActionsVisible] = 1) :=
  conf_regions_exclusive (run initConf tr)

/-- A context snapshot used to instantiate theorems at concrete inputs. -/
def ctx0 : Ctx :=
  { showFallbacks := true, fbCount := 2, mCount := 1,
    fbMod := .shift, actMod := .alt,
    inputUnderMouse := false, queryIsFinished := false }

theorem results_region_exactly_one_leaf_witness :
    countActive (run initConf [(ctx0, Event.resultsReady)])
      [SState.resultsModelMatches, SState.resultsModelFallbacks] = 1
    ∧ countActive (run initConf [(ctx0, Event.resultsReady)])
      [SState.resultsActionsHidden, SState.resultsActionsVisible] = 1 :=
  (results_region_exactly_one_leaf [(ctx0, Event.resultsReady)]).2 (by decide)

/-- C2: while in `s_results_postpone`, a `resultsReady` signal always
transitions to `s_results_model_matches` (entering `s_results_visible` with
the actions sub-region in its initial hidden state), for every context:
the transition (plugin.cpp:300-301) is an unguarded `QSignalTransition`,
independent of the fallback-display setting and fallback count. -/
theorem postponed_results_ready_gives_matches (c : Ctx) :
    resultsStep c Event.resultsReady RState.postpone
      = RState.visible MState.matches AState.ahidden := rfl

/-- C3: from `s_results_postpone` the machine moves to `s_results_hidden`
exactly on the debounce-timer timeout, or on `queryFinsished` when the
fallback display is disabled or the fallback row count is zero
(plugin.cpp:283-294); in particular, with fallback display disabled, a
query finishing with no matches and non-empty fallbacks goes to hidden and
never to the fallbacks state. -/
theorem postponed_to_hidden_characterisation (c : Ctx) (e : Event) :
    (resultsStep c e RState.postpone = RState.hidden ↔
      e = Event.timerTimeout ∨
        (e = Event.queryFinished ∧ (c.showFallbacks = false ∨ c.fbCount = 0)))
    ∧ (c.showFallbacks = false → c.mCount = 0 → 0 < c.fbCount →
        resultsStep c Event.queryFinished RState.postpone = RState.hidden
        ∧ ∀ a : AState,
            resultsStep c Event.queryFinished RState.postpone
              ≠ RState.visible MState.fallbacks a) := by
  constructor
  · cases e <;> simp only [resultsStep]
    · simp
    · simp
    · split
      · simp_all
      · rename_i h
        simp only [not_or] at h
        simp [h.1, h.2]
    · simp
    · split <;> simp
    · simp
    · simp
    · simp
  · intro hsf _hm _hfb
    simp [resultsStep, hsf]

theorem postponed_to_hidden_characterisation_witness :
    resultsStep { ctx0 with showFallbacks := false, mCount := 0 }
        Event.queryFinished RState.postpone = RState.hidden :=
  ((postponed_to_hidden_characterisation
      { ctx0 with showFallbacks := false, mCount := 0 }
      Event.queryFinished).2 rfl rfl (by decide)).1

/-- C4: pressing `mods_keys[mod_fallback]` while the results region is
hidden and the fallback count is positive enters the fallbacks state
(plugin.cpp:309-311); releasing it while in the fallbacks state goes to
hidden when the match count is zero and to the matches state when it is
non-zero (plugin.cpp:317-323). -/
theorem fallback_modifier_press_release (c : Ctx) (a : AState) :
    (0 < c.fbCount →
      resultsStep c (Event.keyPress c.fbMod) RState.hidden
        = RState.visible MState.fallbacks AState.ahidden)
    ∧ (c.mCount = 0 →
      resultsStep c (Event.keyRelease c.fbMod) (RState.visible MState.fallbacks a)
        = RState.hidden)
    ∧ (c.mCount ≠ 0 →
      ∃ a2 : AState,
        resultsStep c (Event.keyRelease c.fbMod) (RState.visible MState.fallbacks a)
          = RState.visible MState.matches a2) := by
  refine ⟨fun hfb => ?_, fun hm => ?_, fun hm => ?_⟩
  · simp [resultsStep, hfb]
  · simp [resultsStep, hm]
  · exact ⟨actionsStep c (.keyRelease c.fbMod) a, by simp [resultsStep, hm]⟩

theorem fallback_modifier_press_release_witness :
    resultsStep ctx0 (Event.keyPress ctx0.fbMod) RState.hidden
        = RState.visible MState.fallbacks AState.ahidden
    ∧ resultsStep { ctx0 with mCount := 0 }
        (Event.keyRelease ctx0.fbMod) (RState.visible MState.fallbacks AState.ahidden)
        = RState.hidden
    ∧ ∃ a2 : AState,
        resultsStep ctx0 (Event.keyRelease ctx0.fbMod)
          (RState.visible MState.fallbacks AState.ahidden)
          = RState.visible MState.matches a2 :=
  ⟨(fallback_modifier_press_release ctx0 AState.ahidden).1 (by decide),
   (fallback_modifier_press_release { ctx0 with mCount := 0 } AState.ahidden).2.1 rfl,
   (fallback_modifier_press_release ctx0 AState.ahidden).2.2 (by decide)⟩

/-! Query lifecycle wiring.  Queries are identified by creation order
(`nextId` is the id the next query will get).  `wiredFinished` holds the
ids whose `finished` signal is connected to `Plugin::queryFinsished`,
`wiredResults` the ids whose `matches()` `rowsInserted` signal is connected
to `Plugin::resultsReady`; `cancelled` the ids on which `cancel()` was
called. -/

structure WireState where
  nextId : Nat
  current : Option Nat
  wiredFinished : List Nat
  wiredResults : List Nat
  cancelled : List Nat
deriving DecidableEq

/-- Wiring state before the first text change: no query exists. -/
def initWire : WireState :=
  { nextId := 0, current := none, wiredFinished := [], wiredResults := [],
    cancelled := [] }

/-- The `textChanged` handler of `Plugin::Plugin` (plugin.cpp:184-200): if a
current query exists, cancel it and disconnect its `finished` and
`rowsInserted` connections; then construct the new query, connect both of
its signals and make it current. -/
def onTextChanged (s : WireState) : WireState :=
  let s1 :=
    match s.current with
    | some q =>
        { s with cancelled := q :: s.cancelled,
                 wiredFinished := s.wiredFinished.erase q,
                 wiredResults := s.wiredResults.erase q }
    | none => s
  { nextId := s1.nextId + 1,
    current := some s1.nextId,
    wiredFinished := s1.wiredFinished ++ [s1.nextId],
    wiredResults := s1.wiredResults ++ [s1.nextId],
    cancelled := s1.cancelled }

/-- The wiring effect of the `s_results_model_matches` entered handler
(plugin.cpp:386): disconnect the current query's `rowsInserted` signal from
`Plugin::resultsReady`. -/
def onEnterMatchesWire (s : WireState) : WireState :=
  match s.current with
  | some q => { s with wiredResults := s.wiredResults.erase q }
  | none => s

/-- The two events that touch query wiring. -/
inductive WEvent
  | textChanged
  | enterMatches
deriving DecidableEq

def wireStep (s : WireState) : WEvent → WireState
  | .textChanged => onTextChanged s
  | .enterMatches => onEnterMatchesWire s

def wireRun (s : WireState) (es : List WEvent) : WireState :=
  es.foldl wireStep s

/-- The current query as a (zero- or one-element) list of ids. -/
def currentList (s : WireState) : List Nat :=
  match s.current with
  | some q => [q]
  | none => []

/-- Wiring invariant: the `finished` connection is exactly the current
query; the `rowsInserted` connection is the current query or already
severed; cancelled ids are strictly older than the current query; ids are
below `nextId`. -/
def WireInv (s : WireState) : Prop :=
  s.wiredFinished = currentList s
  ∧ (s.wiredResults = currentList s ∨ s.wiredResults = [])
  ∧ (∀ n, s.current = some n → n < s.nextId ∧ ∀ q ∈ s.cancelled, q < n)
  ∧ (s.current = none → s.cancelled = [])

theorem wireInv_init : WireInv initWire := by
  refine ⟨rfl, Or.inr rfl, ?_, fun _ => rfl⟩
  intro n h
  simp [initWire] at h

theorem wireInv_onTextChanged (s : WireState) (h : WireInv s) :
    WireInv (onTextChanged s) := by
  obtain ⟨h1, h2, h3, h4⟩ := h
  cases hc : s.current with
  | none =>
      have hf : s.wiredFinished = [] := by simpa [currentList, hc] using h1
      have hr : s.wiredResults = [] := by
        rcases h2 with h2 | h2
        · simpa [currentList, hc] using h2
        · exact h2
      refine ⟨?_, Or.inl ?_, ?_, ?_⟩
      · simp [onTextChanged, hc, currentList, hf]
      · simp [onTextChanged, hc, currentList, hr]
      · intro n hn
        simp only [onTextChanged, hc] at hn ⊢
        injection hn with hn
        subst hn
        simp [h4 hc]
      · intro hnone
        simp [onTextChanged, hc] at hnone
  | some q =>
      have hq := h3 q hc
      have hf : s.wiredFinished = [q] := by simpa [currentList, hc] using h1
      refine ⟨?_, Or.inl ?_, ?_, ?_⟩
      · simp [onTextChanged, hc, currentList, hf]
      · rcases h2 with h2 | h2 <;>
          simp [onTextChanged, hc, currentList, h2, currentList] at h2 ⊢
      · intro n hn
        simp only [onTextChanged, hc] at hn ⊢
        injection hn with hn
        subst hn
        refine ⟨Nat.lt_succ_self _, ?_⟩
        intro x hx
        rcases List.mem_cons.mp hx with rfl | hx
        · exact hq.1
        · exact lt_trans (hq.2 x hx) hq.1
      · intro hnone
        simp [onTextChanged, hc] at hnone

theorem wireInv_onEnterMatches (s : WireState) (h : WireInv s) :
    WireInv (onEnterMatchesWire s) := by
  obtain ⟨h1, h2, h3, h4⟩ := h
  cases hc : s.current with
  | none => simpa [onEnterMatchesWire, hc] using ⟨h1, h2, h3, h4⟩
  | some q =>
      have hf : s.wiredFinished = [q] := by simpa [currentList, hc] using h1
      refine ⟨?_, Or.inr ?_, ?_, ?_⟩
      · simp [onEnterMatchesWire, hc, currentList, hf]
      · rcases h2 with h2 | h2 <;>
          simp [onEnterMatchesWire, hc, currentList] at h2 ⊢ <;>
          simp [h2]
      · intro n hn
        simp only [onEnterMatchesWire, hc] at hn ⊢
        injection hn with hn
        subst hn
        exact h3 q hc
      · intro hnone
        simp [onEnterMatchesWire, hc] at hnone

theorem wireInv_step (s : WireState) (h : WireInv s) (e : WEvent) :
    WireInv (wireStep s e) := by
  cases e
  · exact wireInv_onTextChanged s h
  · exact wireInv_onEnterMatches s h

theorem wireInv_run (es : List WEvent) (s : WireState) (h : WireInv s) :
    WireInv (wireRun s es) := by
  induction es generalizing s with
  | nil => exact h
  | cons e es ih => exact ih (wireStep s e) (wireInv_step s h e)

/-- C5: after any sequence of text changes and matches-entries starting
from the initial wiring state, every query still connected (on either
signal) is the current one, at most one query is connected per signal, and
no cancelled query is connected: the handler (plugin.cpp:184-200) cancels
and disconnects the previous current query before constructing and
connecting the new one. -/
theorem single_query_wired (es : List WEvent) :
    (∀ q ∈ (wireRun initWire es).wiredFinished,
        (wireRun initWire es).current = some q)
    ∧ (∀ q ∈ (wireRun initWire es).wiredResults,
        (wireRun initWire es).current = some q)
    ∧ (wireRun initWire es).wiredFinished.length ≤ 1
    ∧ (wireRun initWire es).wiredResults.length ≤ 1
    ∧ (∀ q ∈ (wireRun initWire es).cancelled,
        q ∉ (wireRun initWire es).wiredFinished
        ∧ q ∉ (wireRun initWire es).wiredResults) := by
  obtain ⟨h1, h2, h3, h4⟩ := wireInv_run es initWire wireInv_init
  set s := wireRun initWire es with hs
  have hcur : ∀ q ∈ currentList s, s.current = some q := by
    intro q hq
    cases hc : s.current with
    | none => simp [currentList, hc] at hq
    | some n =>
        simp only [currentList, hc, List.mem_singleton] at hq
        subst hq
        rfl
  have hlen : (currentList s).length ≤ 1 := by
    cases hc : s.current <;> simp [currentList, hc]
  have hres : ∀ q ∈ s.wiredResults, s.current = some q := by
    rcases h2 with h2 | h2
    · intro q hq; exact hcur q (h2 ▸ hq)
    · intro q hq; simp [h2] at hq
  refine ⟨fun q hq => hcur q (h1 ▸ hq), hres, h1 ▸ hlen, ?_, ?_⟩
  · rcases h2 with h2 | h2 <;> simp [h2, hlen]
  · intro q hq
    cases hc : s.current with
    | none => rw [h4 hc] at hq; simp at hq
    | some n =>
        have hlt : q < n := (h3 n hc).2 q hq
        constructor
        · intro hmem
          have := hcur q (h1 ▸ hmem)
          rw [hc] at this
          injection this with this
          omega
        · intro hmem
          have := hres q hmem
          rw [hc] at this
          injection this with this
          omega

theorem single_query_wired_witness :
    0 ∉ (wireRun initWire [WEvent.textChanged, WEvent.textChanged]).wiredFinished
    ∧ 0 ∉ (wireRun initWire [WEvent.textChanged, WEvent.textChanged]).wiredResults :=
  (single_query_wired [WEvent.textChanged, WEvent.textChanged]).2.2.2.2 0 (by decide)

/-- Erasure never adds: membership after further non-textChanged wiring
events implies membership before. -/
theorem not_mem_wiredResults_run (es : List WEvent)
    (hes : WEvent.textChanged ∉ es) (s : WireState) (q : Nat)
    (h : q ∉ s.wiredResults) : q ∉ (wireRun s es).wiredResults := by
  induction es generalizing s with
  | nil => exact h
  | cons e es ih =>
      have he : e ≠ WEvent.textChanged := fun hcontra => hes (by simp [hcontra])
      have hes2 : WEvent.textChanged ∉ es := fun hcontra => hes (by simp [hcontra])
      refine ih hes2 (wireStep s e) ?_
      cases e with
      | textChanged => exact absurd rfl he
      | enterMatches =>
          cases hc : s.current with
          | none => simpa [wireStep, onEnterMatchesWire, hc] using h
          | some n =>
              simp only [wireStep, onEnterMatchesWire, hc]
              intro hmem
              exact h (List.mem_of_mem_erase hmem)

/-- C10: entering `s_results_model_matches` disconnects the current query's
`rowsInserted` signal from `Plugin::resultsReady` (plugin.cpp:386): after
the entry the current query is no longer wired for results-ready, and stays
unwired over any further events that are not a text change; a text change
wires the newly constructed query again (plugin.cpp:193). -/
theorem matches_entry_severs_results_ready (es0 : List WEvent) (q : Nat)
    (hq : (wireRun initWire es0).current = some q)
    (es : List WEvent) (hes : WEvent.textChanged ∉ es) :
    q ∉ (onEnterMatchesWire (wireRun initWire es0)).wiredResults
    ∧ q ∉ (wireRun (onEnterMatchesWire (wireRun initWire es0)) es).wiredResults
    ∧ ∃ q2 : Nat,
        (onTextChanged (wireRun initWire es0)).current = some q2
        ∧ q2 ∈ (onTextChanged (wireRun initWire es0)).wiredResults := by
  obtain ⟨h1, h2, h3, h4⟩ := wireInv_run es0 initWire wireInv_init
  set s := wireRun initWire es0 with hs
  have hsevered : q ∉ (onEnterMatchesWire s).wiredResults := by
    simp only [onEnterMatchesWire, hq]
    rcases h2 with h2 | h2
    · rw [h2]
      simp [currentList, hq]
    · simp [h2]
  refine ⟨hsevered, not_mem_wiredResults_run es hes _ q hsevered, ?_⟩
  refine ⟨s.nextId, ?_, ?_⟩ <;> simp [onTextChanged, hq]

theorem matches_entry_severs_results_ready_witness :
    0 ∉ (onEnterMatchesWire (wireRun initWire [WEvent.textChanged])).wiredResults
    ∧ 0 ∉ (wireRun (onEnterMatchesWire (wireRun initWire [WEvent.textChanged]))
        [WEvent.enterMatches]).wiredResults :=
  ⟨(matches_entry_severs_results_ready [WEvent.textChanged] 0 (by decide)
      [WEvent.enterMatches] (by decide)).1,
   (matches_entry_severs_results_ready [WEvent.textChanged] 0 (by decide)
      [WEvent.enterMatches] (by decide)).2.1⟩

/-! Activation dispatcher: the `activate` lambda of plugin.cpp:468-485. -/

/-- Which model sub-state reported itself active when the gesture arrived
(`s_results_model_matches->active()` / `s_results_model_fallbacks->active()`). -/
inductive ActiveModel
  | matches
  | fallbacks
  | neither
deriving DecidableEq

/-- The call performed on the current query (or the warning-only path). -/
inductive Invocation
  | activateMatch (row action : Nat)
  | activateFallback (row action : Nat)
  | warnOnly (row action : Nat)
deriving DecidableEq

structure ActivationResult where
  invoked : Invocation
  history : List String
  windowHidden : Bool
  reEmitText : Option String
deriving DecidableEq

/-- The `activate` lambda (plugin.cpp:468-485): dispatch to
`activateMatch` or `activateFallback` depending on which model sub-state is
active (warn if neither); unconditionally append the input text to history;
then hide the window when the control modifier is not held, else re-emit
`textChanged` with the same text. -/
def activate (model : ActiveModel) (ctrlHeld : Bool) (text : String)
    (hist : List String) (row action : Nat) : ActivationResult :=
  { invoked :=
      match model with
      | .matches => .activateMatch row action
      | .fallbacks => .activateFallback row action
      | .neither => .warnOnly row action,
    history := hist ++ [text],
    windowHidden := !ctrlHeld,
    reEmitText := if ctrlHeld then some text else none }

/-- C6: for every activation gesture, the active model decides which
activation is invoked; the input text is always appended to history (one
new entry even when it duplicates an existing one); the window hides
exactly when control is not held, and otherwise a `textChanged` event for
the same text is re-emitted. -/
theorem activation_dispatch (model : ActiveModel) (ctrlHeld : Bool)
    (text : String) (hist : List String) (row action : Nat) :
    (model = ActiveModel.matches →
      (activate model ctrlHeld text hist row action).invoked
        = Invocation.activateMatch row action)
    ∧ (model = ActiveModel.fallbacks →
      (activate model ctrlHeld text hist row action).invoked
        = Invocation.activateFallback row action)
    ∧ (activate model ctrlHeld text hist row action).history = hist ++ [text]
    ∧ (activate model ctrlHeld text hist row action).history.length
        = hist.length + 1
    ∧ ((activate model ctrlHeld text hist row action).windowHidden = true
        ↔ ctrlHeld = false)
    ∧ (activate model ctrlHeld text hist row action).reEmitText
        = (if ctrlHeld then some text else none) := by
  refine ⟨fun hm => ?_, fun hm => ?_, rfl, by simp [activate], ?_, rfl⟩
  · subst hm; rfl
  · subst hm; rfl
  · cases ctrlHeld <;> simp [activate]

theorem activation_dispatch_witness :
    (activate ActiveModel.matches false "2+2" [] 0 0).invoked
      = Invocation.activateMatch 0 0
    ∧ (activate ActiveModel.matches false "2+2" [] 0 0).history = ["2+2"]
    ∧ (activate ActiveModel.matches false "2+2" [] 0 0).windowHidden = true :=
  ⟨(activation_dispatch ActiveModel.matches false "2+2" [] 0 0).1 rfl,
   (activation_dispatch ActiveModel.matches false "2+2" [] 0 0).2.2.1,
   ((activation_dispatch ActiveModel.matches false "2+2" [] 0 0).2.2.2.2.1).mpr rfl⟩

/-! Entry handler of `s_results_actions_visible` (plugin.cpp:412-433). -/

/-- Observable effect of entering `s_results_actions_visible`: whether
`qFatal` is reached, which model's action list is bound, the row selected
in the actions list, whether the actions surface is shown, and whether the
actions-list event filter is installed on the input line. -/
structure ActionsEntryEffect where
  fatalError : Bool
  boundSource : Option MState
  selectedRow : Option Nat
  surfaceShown : Bool
  filterInstalled : Bool
deriving DecidableEq

/-- Entry handler of `s_results_actions_visible` (plugin.cpp:412-433): the
whole body is guarded by `currentIndex().isValid()`; inside, the action
list is fetched from whichever model sub-state is active, and `qFatal` is
reached when neither is. -/
def onEnterActionsShown (rowSelected : Bool) (activeModel : Option MState) :
    ActionsEntryEffect :=
  if rowSelected then
    match activeModel with
    | some MState.matches =>
        { fatalError := false, boundSource := some MState.matches,
          selectedRow := some 0, surfaceShown := true, filterInstalled := true }
    | some MState.fallbacks =>
        { fatalError := false, boundSource := some MState.fallbacks,
          selectedRow := some 0, surfaceShown := true, filterInstalled := true }
    | none =>
        { fatalError := true, boundSource := none, selectedRow := none,
          surfaceShown := false, filterInstalled := false }
  else
    { fatalError := false, boundSource := none, selectedRow := none,
      surfaceShown := false, filterInstalled := false }

/-- The model sub-state active in a results-region state: exactly one
whenever `s_results_visible` is active. -/
def modelOf : RState → Option MState
  | RState.visible m _ => some m
  | _ => none

/-- C7: entering `s_results_actions_visible` with a row selected but
neither model sub-state active reaches `qFatal`; yet for every
configuration in which `s_results_visible` is active, the model sub-region
supplies an active sub-state, so the fatal branch is never reached. -/
theorem actions_entry_fatal_unreachable :
    (onEnterActionsShown true none).fatalError = true
    ∧ ∀ (m : MState) (a : AState) (sel : Bool),
        (onEnterActionsShown sel (modelOf (RState.visible m a))).fatalError
          = false := by
  refine ⟨rfl, ?_⟩
  intro m a sel
  cases m <;> cases sel <;> rfl

/-- C8: entering `s_results_actions_visible` with no row selected is a
no-op: nothing is bound, no row selected, surface not shown, no event
filter installed, and no fatal error. -/
theorem actions_entry_no_selection_noop (activeModel : Option MState) :
    onEnterActionsShown false activeModel =
      { fatalError := false, boundSource := none, selectedRow := none,
        surfaceShown := false, filterInstalled := false } := rfl

/-! Entry handler of `s_results_model_fallbacks` (plugin.cpp:401-410). -/

/-- The results list view, reduced to what the handler reads and writes:
the identity of the bound model and the current row. -/
structure ListView where
  boundModel : Option Nat
  currentRow : Option Nat
deriving DecidableEq

structure FallbacksEntryResult where
  view : ListView
  surfaceShown : Bool
deriving DecidableEq

/-- Entry handler of `s_results_model_fallbacks` (plugin.cpp:401-410):
rebind the view to the fallback model and select row 0 only when the bound
model differs from the current query's fallback model; always show the
results list. -/
def onEnterFallbacks (fbModel : Nat) (v : ListView) : FallbacksEntryResult :=
  if v.boundModel = some fbModel then { view := v, surfaceShown := true }
  else
    { view := { boundModel := some fbModel, currentRow := some 0 },
      surfaceShown := true }

/-- C9: entering the fallbacks state rebinds and selects row 0 exactly when
the fallback model is not already bound; when it is bound, binding and row
selection are untouched, and entering twice equals entering once; and a
query finishing with no matches while fallbacks are enabled and non-empty
drives the machine from postpone to the fallbacks state, whose entry on a
differently-bound view selects row 0. -/
theorem fallbacks_entry_idempotent (fb : Nat) (v : ListView) (c : Ctx) :
    (v.boundModel = some fb → (onEnterFallbacks fb v).view = v)
    ∧ (v.boundModel ≠ some fb →
        (onEnterFallbacks fb v).view
          = { boundModel := some fb, currentRow := some 0 })
    ∧ onEnterFallbacks fb (onEnterFallbacks fb v).view = onEnterFallbacks fb v
    ∧ (c.showFallbacks = true → c.mCount = 0 → 0 < c.fbCount →
        resultsStep c Event.queryFinished RState.postpone
          = RState.visible MState.fallbacks AState.ahidden)
    ∧ (v.boundModel ≠ some fb →
        (onEnterFallbacks fb v).view.currentRow = some 0) := by
  refine ⟨fun hb => ?_, fun hb => ?_, ?_, fun hsf _hm hfb => ?_, fun hb => ?_⟩
  · simp [onEnterFallbacks, hb]
  · simp [onEnterFallbacks, hb]
  · by_cases hb : v.boundModel = some fb <;> simp [onEnterFallbacks, hb]
  · simp [resultsStep, hsf, Nat.pos_iff_ne_zero.mp hfb]
  · simp [onEnterFallbacks, hb]

theorem fallbacks_entry_idempotent_witness :
    (onEnterFallbacks 7 { boundModel := some 3, currentRow := some 1 }).view
      = { boundModel := some 7, currentRow := some 0 }
    ∧ (onEnterFallbacks 7 { boundModel := some 7, currentRow := some 1 }).view
      = { boundModel := some 7, currentRow := some 1 }
    ∧ resultsStep { ctx0 with mCount := 0 } Event.queryFinished RState.postpone
      = RState.visible MState.fallbacks AState.ahidden :=
  ⟨(fallbacks_entry_idempotent 7 { boundModel := some 3, currentRow := some 1 }
      ctx0).2.1 (by decide),
   (fallbacks_entry_idempotent 7 { boundModel := some 7, currentRow := some 1 }
      ctx0).1 rfl,
   (fallbacks_entry_idempotent 7 { boundModel := some 7, currentRow := some 1 }
      { ctx0 with mCount := 0 }).2.2.2.1 rfl rfl (by decide)⟩

end WidgetsBoxModel
